import Mathlib

/-!
Shallow embedding of `src/Modules/Vitals/vitals.py` (RPI_ROBOT).

Modelling conventions:
* Python floats are modelled as exact rationals (`ℚ`); the IEEE special
  values that `np.isfinite` screens out are modelled by the `PyFloat`
  inductive with explicit `nan` / infinity constructors.
* Python's `round` builtin (banker's rounding, ties to even) is `pyRound`;
  `round(x, 1)` is `pyRound1`.
* The bounded `queue.Queue(maxsize=256)` is a `List (Option String)` with
  `put_nowait` dropping the message when the queue is full; the `None`
  sentinel pushed at session end is the `none` element.
* The worker thread of `get_hr` is a deterministic loop over a script of
  `Event`s (one event = one body of the worker loop: a processed window,
  an `OSError`, or an unexpected exception).  Wall-clock time is abstracted
  to one unit per processed event, with the session deadline in the same
  units, matching the `time.time() - start_t < duration_sec` checks that
  guard every iteration.
* The `_collect` generator is split into its initial-fill pass
  (`fill_loop` / `initial_fill`, the timeout being modelled by exhaustion
  of the finite poll script) and its steady-state emission step
  (`emit_step`).
-/

/-- Python's `round(x)` builtin on a real value: round half to even. -/
def pyRound (x : ℚ) : ℤ :=
  if x - Rat.floor x < 1/2 then Rat.floor x
  else if 1/2 < x - Rat.floor x then Rat.floor x + 1
  else if Rat.floor x % 2 = 0 then Rat.floor x else Rat.floor x + 1

/-- Python's `round(x, 1)`: round to one decimal place, ties to even. -/
def pyRound1 (x : ℚ) : ℚ := (pyRound (10 * x) : ℚ) / 10

/-- A Python float: either a finite value or one of the non-finite values
that `np.isfinite` rejects. -/
inductive PyFloat
  | finite (v : ℚ)
  | nan
  | posInf
  | negInf
deriving DecidableEq

/-- `np.isfinite` on a `PyFloat`. -/
def PyFloat.isFinite : PyFloat → Bool
  | .finite _ => true
  | _ => false

/-- Outcome of `hp.process` + `meas.get('bpm', nan)` inside `_compute_bpm`:
either the float it produced, or an exception escaping it. -/
inductive EstResult
  | val (bpm : PyFloat)
  | exn
deriving DecidableEq

/-- `_compute_bpm` (vitals.py lines 109-122), after the normalisation step:
classify the estimator outcome.  `if not np.isfinite(bpm) or bpm < 20 or
bpm > 220: return None, 'out_of_range'`; exceptions give `None, 'error'`. -/
def compute_bpm : EstResult → Option ℚ × String
  | .exn => (none, "error")
  | .val f =>
    match f with
    | .finite v => if v < 20 ∨ v > 220 then (none, "out_of_range") else (some v, "ok")
    | _ => (none, "out_of_range")

/-- The live channel: `queue.Queue(maxsize=256)` holding strings or the
`None` sentinel, in FIFO order. -/
abbrev Queue := List (Option String)

/-- The channel capacity, `maxsize=256`. -/
def QSIZE : ℕ := 256

/-- `q.put_nowait(msg)` wrapped in `try/except queue.Full: pass`: append if
there is room, otherwise drop the message and leave the queue unchanged. -/
def put_nowait (q : Queue) (m : Option String) : Queue :=
  if q.length < QSIZE then q ++ [m] else q

/-- The per-session smoother state of the worker: `prev_live` (EMA state)
and `good_bpms` (the accepted smoothed values). -/
structure SmoothState where
  prev_live : Option ℚ
  good_bpms : List ℚ
deriving DecidableEq

/-- `EMA_ALPHA = 0.25`. -/
def EMA_ALPHA : ℚ := 1/4

/-- `live = bpm if prev_live is None else (EMA_ALPHA*bpm + (1-EMA_ALPHA)*prev_live)`. -/
def live_update (st : SmoothState) (bpm : ℚ) : ℚ :=
  match st.prev_live with
  | none => bpm
  | some p => EMA_ALPHA * bpm + (1 - EMA_ALPHA) * p

/-- The fixed no-signal message per failure tag (the dict lookup with
default `"LIVE --"` in the worker). -/
def fail_msg (status : String) : String :=
  if status = "noisy" then "LIVE  --  (noisy / adjust finger)"
  else if status = "error" then "LIVE  --  (processing error)"
  else if status = "out_of_range" then "LIVE  --  (out of range)"
  else "LIVE --"

/-- One processing tick of the worker (vitals.py lines 150-163): run
`_compute_bpm`, on a value update the EMA state, append the smoothed value
to `good_bpms` and format `f"LIVE  {int(round(live))} BPM"`; on an absent
value leave the state alone and pick the fixed failure message. -/
def tick (st : SmoothState) (est : EstResult) : SmoothState × String :=
  match compute_bpm est with
  | (some bpm, _) =>
    let live := live_update st bpm
    (⟨some live, st.good_bpms ++ [live]⟩,
     "LIVE  " ++ toString (pyRound live) ++ " BPM")
  | (none, status) => (st, fail_msg status)

/-- One body of the worker loop of `get_hr` (vitals.py lines 140-181):
either a window was pulled from the collector and processed, or an
`OSError` was raised by the hardware layer, or some other exception was
raised during per-window processing. -/
inductive Event
  | window (est : EstResult)
  | ioFault (emsg : String)
  | unexpected (emsg : String)
deriving DecidableEq

/-- Whether an event is a hardware I/O fault (`except OSError`). -/
def Event.isFault : Event → Bool
  | .ioFault _ => true
  | _ => false

/-- `MAX_RESETS = 3`. -/
def MAX_RESETS : ℕ := 3

/-- The worker's loop state: elapsed time (abstracted to one unit per
iteration), the reset counter, the smoother state, the live channel, and
whether the loop broke out early on `resets > MAX_RESETS`. -/
structure WState where
  time : ℕ
  resets : ℕ
  smooth : SmoothState
  q : Queue
  early_stop : Bool
deriving DecidableEq

/-- Effect of one worker-loop body on the loop state. -/
def wstep (st : WState) (e : Event) : WState :=
  match e with
  | .window est =>
    let t := tick st.smooth est
    { st with time := st.time + 1, smooth := t.1, q := put_nowait st.q (some t.2) }
  | .ioFault m =>
    let r := st.resets + 1
    { st with
      time := st.time + 1
      resets := r
      q := put_nowait st.q (some ("I2C error: " ++ m ++ ". Reinitializing…"))
      early_stop := st.early_stop || decide (MAX_RESETS < r) }
  | .unexpected m =>
    { st with
      time := st.time + 1
      q := put_nowait st.q (some ("Unexpected error: " ++ m)) }

/-- The worker loop: every iteration is guarded by the deadline check
`time.time() - start_t < duration_sec`, and `resets > MAX_RESETS` breaks
out of the loop. -/
def run_loop (duration : ℕ) : WState → List Event → WState
  | st, [] => st
  | st, e :: es =>
    if st.early_stop || decide (duration ≤ st.time) then st
    else run_loop duration (wstep st e) es

/-- `np.mean` of a list of rationals (meaningful for nonempty lists). -/
def npMean (l : List ℚ) : ℚ := l.sum / l.length

/-- Session finalization of the average:
`int(round(float(np.mean(good_bpms)))) if good_bpms else None`. -/
def final_avg (good : List ℚ) : Option ℤ :=
  match good with
  | [] => none
  | _ => some (pyRound (npMean good))

/-- What a finished `get_hr` session leaves behind: `state['avg']`, the
live channel contents, the completion event `state['done']`, the accepted
list, the elapsed time at loop exit, and whether the reset bound ended the
loop. -/
structure WResult where
  avg : Option ℤ
  q : Queue
  done : Bool
  good : List ℚ
  endTime : ℕ
  early : Bool
deriving DecidableEq

/-- Worker state at thread start: `resets = 0`, `prev_live = None`,
`good_bpms = []`, empty channel. -/
def init_wstate : WState := ⟨0, 0, ⟨none, []⟩, [], false⟩

/-- The whole worker of `get_hr`: run the loop, then
`state['avg'] = int(round(float(np.mean(good_bpms)))) if good_bpms else None`,
`q.put_nowait(None)` (drop-on-full like every push), `state['done'].set()`. -/
def run_worker (duration : ℕ) (events : List Event) : WResult :=
  let st := run_loop duration init_wstate events
  ⟨final_avg st.smooth.good_bpms, put_nowait st.q none, true,
   st.smooth.good_bpms, st.time, st.early_stop⟩

/-- The consumer `dbg_iter`: `q.get()` in a loop, stopping at the `None`
sentinel.  Applied to the finally emitted channel contents; yields the
messages before the sentinel, or `none` when the sentinel never arrives
(the `q.get()` call then blocks forever). -/
def dbg_iter : Queue → Option (List String)
  | [] => none
  | none :: _ => some []
  | some m :: rest => (dbg_iter rest).map (fun l => m :: l)

/-- One poll of `read_sequential()`: a chunk of red samples and a chunk of
ir samples (either may be empty when no data is ready). -/
structure Poll where
  red : List ℤ
  ir : List ℤ
deriving DecidableEq

/-- Python's `l[-n:]` for `n > 0`: the trailing `min n l.length` elements. -/
def take_last (l : List α) (n : ℕ) : List α := l.drop (l.length - n)

/-- The initial-fill loop of `_collect` (vitals.py lines 88-95):
`while len(ir) < need`, poll, and on `if r and i` (both chunks non-empty)
extend both buffers.  The wall-clock fill timeout is modelled by the
finite poll script running out. -/
def fill_loop (need : ℕ) : List ℤ × List ℤ → List Poll → List ℤ × List ℤ
  | acc, [] => acc
  | acc, p :: ps =>
    if acc.2.length < need then
      if p.red ≠ [] ∧ p.ir ≠ [] then
        fill_loop need (acc.1 ++ p.red, acc.2 ++ p.ir) ps
      else fill_loop need acc ps
    else acc

/-- The initial collection pass: fill, then
`red = red[-need:]; ir = ir[-need:]` and yield the first window. -/
def initial_fill (need : ℕ) (polls : List Poll) : List ℤ × List ℤ :=
  let acc := fill_loop need ([], []) polls
  (take_last acc.1 need, take_last acc.2 need)

/-- The steady-state body of `_collect` (vitals.py lines 98-105): extend
on a non-empty poll, and once `len(ir) >= s_need + step` truncate both
buffers to the trailing `s_need` elements and yield the window.  Returns
the updated buffers and the emitted window, if any. -/
def emit_step (need step : ℕ) (buf : List ℤ × List ℤ) (p : Poll) :
    (List ℤ × List ℤ) × Option (List ℤ × List ℤ) :=
  if p.red ≠ [] ∧ p.ir ≠ [] then
    if need + step ≤ (buf.2 ++ p.ir).length then
      ((take_last (buf.1 ++ p.red) need, take_last (buf.2 ++ p.ir) need),
       some (take_last (buf.1 ++ p.red) need, take_last (buf.2 ++ p.ir) need))
    else ((buf.1 ++ p.red, buf.2 ++ p.ir), none)
  else (buf, none)

/-- Raw state of the DS18B20 thermometer as `read_temp` sees it: no device
directory matches the glob, the CRC line never reads `YES` within the
retries, or a valid reading of `t=<millidegrees>`. -/
inductive RawTemp
  | noDevice
  | crcFail
  | reading (milli : ℤ)
deriving DecidableEq

/-- The `FileNotFoundError` message of `_get_device_file`. -/
def DEVICE_NOT_FOUND : String :=
  "No DS18B20 found under /sys/bus/w1/devices/. Enable 1-Wire and check wiring (GPIO4 / pin 7, 4.7k pull-up to 3.3V)."

/-- The `RuntimeError` message of `read_temp_c_float`. -/
def CRC_FAIL : String := "Failed to get a valid reading (CRC not YES)."

/-- Return value of `read_temp`: `{'ok': True, 'tempC': v}`,
`{'ok': True, 'tempF': v}` or `{'ok': False, 'error': e}`. -/
inductive TempRes
  | okC (v : ℚ)
  | okF (v : ℚ)
  | err (e : String)
deriving DecidableEq

/-- Python's `str.upper()` restricted to ASCII, as `scale.upper()` uses it:
uppercase every character. -/
def str_upper (s : String) : String := String.mk (s.data.map Char.toUpper)

/-- `read_temp(scale, rounding)` (vitals.py lines 50-65): read the raw
value (`milli_c / 1000.0`), apply the rounding policy (`floor`, `ceil`,
else round to one decimal), then apply the Fahrenheit conversion at the
output boundary when `scale.upper() == "F"`.  Exceptions from the device
layer become `{'ok': False, 'error': str(e)}`. -/
def read_temp (raw : RawTemp) (scale : String) (rounding : String) : TempRes :=
  match raw with
  | .noDevice => .err DEVICE_NOT_FOUND
  | .crcFail => .err CRC_FAIL
  | .reading milli =>
    let t : ℚ :=
      if rounding = "floor" then ((Rat.floor ((milli : ℚ) / 1000) : ℤ) : ℚ)
      else if rounding = "ceil" then ((Rat.ceil ((milli : ℚ) / 1000) : ℤ) : ℚ)
      else pyRound1 ((milli : ℚ) / 1000)
    if str_upper scale = "F" then .okF (pyRound1 (t * (9/5) + 32)) else .okC t

/-- The Celsius value carried by a `TempRes` (0 when not an `okC`). -/
def TempRes.valC : TempRes → ℚ
  | .okC v => v
  | _ => 0

/-- Final payload of `get_vitals`: `{'ok': True, 'avg_hr': ..., tempC|tempF: ...}`
or `{'ok': False, 'error': ...}`. -/
inductive FinalRes
  | ok (avg_hr : Option ℤ) (temp_key : String) (temp_val : ℚ)
  | fail (error : String)
deriving DecidableEq

/-- `get_vitals` (vitals.py lines 203-231), given the temperature outcome
and the heart-rate session's live lines and final average: on temperature
failure still run the session, prefix the stream with the temperature
error line and report `{'ok': False, 'error': ...}`; on success prefix
every live line with the constant temperature tag and bundle the average
with the temperature. -/
def get_vitals (t : TempRes) (hr_avg : Option ℤ) (hr_lines : List String) :
    FinalRes × List String :=
  match t with
  | .err e => (.fail e, ("TEMP ERROR: " ++ e) :: hr_lines)
  | .okC v =>
    (.ok hr_avg "tempC" v, hr_lines.map (fun line => "TEMPC " ++ toString v ++ " | " ++ line))
  | .okF v =>
    (.ok hr_avg "tempF" v, hr_lines.map (fun line => "TEMPF " ++ toString v ++ " | " ++ line))

/-- `Rat.floor` agrees with Mathlib's floor on `ℚ`. -/
theorem ratFloor_eq (q : ℚ) : Rat.floor q = ⌊q⌋ := by
  rw [Rat.floor_def', Rat.floor_def]

example : compute_bpm (.val (.finite 72)) = (some 72, "ok") := by decide
example : compute_bpm (.val .nan) = (none, "out_of_range") := by decide
example : compute_bpm (.val (.finite 221)) = (none, "out_of_range") := by decide
example : compute_bpm .exn = (none, "error") := by decide
example : tick ⟨none, []⟩ (.val (.finite 100)) = (⟨some 100, [100]⟩, "LIVE  100 BPM") := by
  simp only [tick, compute_bpm, live_update]
  norm_num [pyRound, ratFloor_eq]
  decide
example : pyRound (5/2) = 2 := by simp only [pyRound, ratFloor_eq]; norm_num
example : pyRound (7/2) = 4 := by simp only [pyRound, ratFloor_eq]; norm_num
example : pyRound1 (23125/1000) = 231/10 := by
  simp only [pyRound1, pyRound, ratFloor_eq]; norm_num

/-! ### Helper lemmas -/

/-- `pyRound` returns the floor or the floor plus one. -/
theorem pyRound_cases (x : ℚ) : pyRound x = ⌊x⌋ ∨ pyRound x = ⌊x⌋ + 1 := by
  unfold pyRound
  rw [ratFloor_eq]
  split
  · exact Or.inl rfl
  · split
    · exact Or.inr rfl
    · split
      · exact Or.inl rfl
      · exact Or.inr rfl

/-- `pyRound` never goes below the floor. -/
theorem floor_le_pyRound (x : ℚ) : ⌊x⌋ ≤ pyRound x := by
  rcases pyRound_cases x with h | h <;> omega

/-- `pyRound` never goes above the ceiling. -/
theorem pyRound_le_ceil (x : ℚ) : pyRound x ≤ ⌈x⌉ := by
  unfold pyRound
  rw [ratFloor_eq]
  have hfc : ⌊x⌋ ≤ ⌈x⌉ := Int.floor_le_ceil x
  have key : (1:ℚ)/2 ≤ x - ⌊x⌋ → ⌊x⌋ + 1 ≤ ⌈x⌉ := by
    intro h
    have : (⌊x⌋ : ℚ) < x := by linarith
    have := Int.lt_ceil.mpr this
    omega
  split
  · exact hfc
  · next h =>
    push_neg at h
    split
    · exact key h
    · split
      · exact hfc
      · exact key h

/-- `pyRound` is a nearest integer: it is within one half of its input. -/
theorem abs_sub_pyRound (x : ℚ) : |x - pyRound x| ≤ 1/2 := by
  have h0 : (⌊x⌋ : ℚ) ≤ x := Int.floor_le x
  have h1 : x < ⌊x⌋ + 1 := Int.lt_floor_add_one x
  unfold pyRound
  rw [ratFloor_eq]
  split
  · next h =>
    rw [abs_of_nonneg (by linarith)]
    linarith
  · next h =>
    push_neg at h
    split
    · next h' =>
      rw [abs_of_nonpos (by push_cast; linarith)]
      push_cast
      linarith
    · next h' =>
      push_neg at h'
      have he : x - ⌊x⌋ = 1/2 := le_antisymm h' h
      split
      · rw [abs_of_nonneg (by linarith)]
        linarith
      · rw [abs_of_nonpos (by push_cast; linarith)]
        push_cast
        linarith

/-- An integer lower bound on the input gives the same bound on `pyRound`. -/
theorem le_pyRound_of_le {a : ℤ} {x : ℚ} (h : (a : ℚ) ≤ x) : a ≤ pyRound x := by
  have := Int.le_floor.mpr h
  have := floor_le_pyRound x
  omega

/-- An integer upper bound on the input gives the same bound on `pyRound`. -/
theorem pyRound_le_of_le {b : ℤ} {x : ℚ} (h : x ≤ (b : ℚ)) : pyRound x ≤ b := by
  have := Int.ceil_le.mpr h
  have := pyRound_le_ceil x
  omega

/-- Sums of lists bounded elementwise are bounded by `length • bound`. -/
theorem list_sum_bounds {a b : ℚ} :
    ∀ (l : List ℚ), (∀ x ∈ l, a ≤ x ∧ x ≤ b) →
      a * l.length ≤ l.sum ∧ l.sum ≤ b * l.length := by
  intro l
  induction l with
  | nil => intro _; simp
  | cons y ys ih =>
    intro h
    have hy := h y (List.mem_cons_self y ys)
    have hys := ih fun x hx => h x (List.mem_cons_of_mem y hx)
    simp only [List.sum_cons, List.length_cons]
    push_cast
    constructor <;> nlinarith [hys.1, hys.2, hy.1, hy.2]

/-- The mean of a nonempty elementwise-bounded list obeys the same bounds. -/
theorem npMean_bounds {a b : ℚ} {l : List ℚ} (hl : l ≠ [])
    (h : ∀ x ∈ l, a ≤ x ∧ x ≤ b) : a ≤ npMean l ∧ npMean l ≤ b := by
  have hn : 0 < (l.length : ℚ) := by
    have : 0 < l.length := List.length_pos.mpr hl
    exact_mod_cast this
  have hs := list_sum_bounds l h
  unfold npMean
  constructor
  · rw [le_div_iff₀ hn]
    linarith [hs.1]
  · rw [div_le_iff₀ hn]
    linarith [hs.2]

/-- A push onto a full channel leaves it unchanged. -/
theorem put_nowait_full {q : Queue} {m : Option String} (h : QSIZE ≤ q.length) :
    put_nowait q m = q := by
  unfold put_nowait
  rw [if_neg (by omega)]

/-- A push onto a channel with room appends the message. -/
theorem put_nowait_not_full {q : Queue} {m : Option String} (h : q.length < QSIZE) :
    put_nowait q m = q ++ [m] := by
  unfold put_nowait
  rw [if_pos h]

/-- A push never pushes the channel past its capacity. -/
theorem put_nowait_length {q : Queue} {m : Option String} (h : q.length ≤ QSIZE) :
    (put_nowait q m).length ≤ QSIZE := by
  unfold put_nowait
  split
  · next h' => simp only [List.length_append, List.length_singleton]; omega
  · exact h

/-- Anything in the channel after a push was there before or is the pushed
message. -/
theorem mem_put_nowait {q : Queue} {m x : Option String} (h : x ∈ put_nowait q m) :
    x ∈ q ∨ x = m := by
  unfold put_nowait at h
  split at h
  · rcases List.mem_append.mp h with h' | h'
    · exact Or.inl h'
    · exact Or.inr (List.mem_singleton.mp h')
  · exact Or.inl h

/-- Any property preserved by every loop body holds at loop exit. -/
theorem run_loop_inv (P : WState → Prop)
    (hstep : ∀ st e, P st → P (wstep st e)) :
    ∀ (es : List Event) (d : ℕ) (st : WState), P st → P (run_loop d st es) := by
  intro es
  induction es with
  | nil => intro d st h; exact h
  | cons e es ih =>
    intro d st h
    unfold run_loop
    split
    · exact h
    · exact ih d (wstep st e) (hstep st e h)

/-- Once the loop has broken out, no further event is processed. -/
theorem run_loop_stopped {d : ℕ} {st : WState} (h : st.early_stop = true) :
    ∀ es, run_loop d st es = st := by
  intro es
  cases es with
  | nil => rfl
  | cons e es => unfold run_loop; rw [if_pos]; rw [h]; rfl

/-- A value accepted by `_compute_bpm` is in the physiological range and
tagged `ok`. -/
theorem compute_bpm_some {e : EstResult} {v : ℚ} {s : String}
    (h : compute_bpm e = (some v, s)) : 20 ≤ v ∧ v ≤ 220 ∧ s = "ok" := by
  cases e with
  | exn => simp [compute_bpm] at h
  | val f =>
    cases f with
    | finite w =>
      rw [show compute_bpm (.val (.finite w)) =
            if w < 20 ∨ w > 220 then (none, "out_of_range") else (some w, "ok") from rfl] at h
      by_cases hw : w < 20 ∨ w > 220
      · rw [if_pos hw] at h
        simp at h
      · rw [if_neg hw] at h
        push_neg at hw
        injection h with h1 h2
        injection h1 with h1
        subst h1
        exact ⟨hw.1, hw.2, h2.symm⟩
    | nan => simp [compute_bpm] at h
    | posInf => simp [compute_bpm] at h
    | negInf => simp [compute_bpm] at h

/-- The EMA update stays inside `[20, 220]` when its inputs are inside. -/
theorem live_update_range {st : SmoothState} {bpm : ℚ}
    (hp : ∀ p, st.prev_live = some p → 20 ≤ p ∧ p ≤ 220)
    (hb : 20 ≤ bpm ∧ bpm ≤ 220) :
    20 ≤ live_update st bpm ∧ live_update st bpm ≤ 220 := by
  unfold live_update
  cases hpl : st.prev_live with
  | none => exact hb
  | some p =>
    have := hp p hpl
    unfold EMA_ALPHA
    constructor <;> nlinarith [this.1, this.2, hb.1, hb.2]

/-- Every loop body advances the abstract clock by one unit. -/
theorem wstep_time (st : WState) (e : Event) : (wstep st e).time = st.time + 1 := by
  cases e <;> rfl

/-- A window body does not touch the reset counter or the break flag. -/
theorem wstep_window_ctrl (st : WState) (est : EstResult) :
    (wstep st (.window est)).resets = st.resets ∧
    (wstep st (.window est)).early_stop = st.early_stop :=
  ⟨rfl, rfl⟩

/-- An unexpected-exception body does not touch the reset counter or the
break flag. -/
theorem wstep_unexpected_ctrl (st : WState) (m : String) :
    (wstep st (.unexpected m)).resets = st.resets ∧
    (wstep st (.unexpected m)).early_stop = st.early_stop :=
  ⟨rfl, rfl⟩

/-- An I/O-fault body increments the reset counter and raises the break
flag exactly when the bound is exceeded. -/
theorem wstep_ioFault_ctrl (st : WState) (m : String) :
    (wstep st (.ioFault m)).resets = st.resets + 1 ∧
    (wstep st (.ioFault m)).early_stop =
      (st.early_stop || decide (MAX_RESETS < st.resets + 1)) :=
  ⟨rfl, rfl⟩

/-- If the remaining script carries enough I/O faults to push the reset
counter past the bound before the deadline, the loop breaks out early. -/
theorem run_loop_fault_stop :
    ∀ (es : List Event) (st : WState) (d : ℕ),
      st.early_stop = false →
      st.resets ≤ MAX_RESETS →
      st.time + es.length < d →
      MAX_RESETS < st.resets + (es.filter Event.isFault).length →
      (run_loop d st es).early_stop = true ∧ (run_loop d st es).time < d := by
  intro es
  induction es with
  | nil =>
    intro st d h0 h1 _ h3
    simp only [List.filter_nil, List.length_nil, Nat.add_zero] at h3
    omega
  | cons e es ih =>
    intro st d h0 h1 h2 h3
    simp only [List.length_cons] at h2
    have hcond : (st.early_stop || decide (d ≤ st.time)) = false := by
      rw [h0, Bool.false_or]
      exact decide_eq_false (by omega)
    have hrun : run_loop d st (e :: es) = run_loop d (wstep st e) es := by
      simp only [run_loop]
      rw [hcond]
      rfl
    rw [hrun]
    cases e with
    | window est =>
      obtain ⟨hr, he⟩ := wstep_window_ctrl st est
      refine ih (wstep st (.window est)) d (he.trans h0) (hr ▸ h1) ?_ ?_
      · rw [wstep_time]
        omega
      · rw [hr]
        simpa only [List.filter_cons, Event.isFault, Bool.false_eq_true, if_false,
          List.length_cons] using h3
    | unexpected m =>
      obtain ⟨hr, he⟩ := wstep_unexpected_ctrl st m
      refine ih (wstep st (.unexpected m)) d (he.trans h0) (hr ▸ h1) ?_ ?_
      · rw [wstep_time]
        omega
      · rw [hr]
        simpa only [List.filter_cons, Event.isFault, Bool.false_eq_true, if_false,
          List.length_cons] using h3
    | ioFault m =>
      obtain ⟨hr, he⟩ := wstep_ioFault_ctrl st m
      by_cases hb : MAX_RESETS < st.resets + 1
      · have hes : (wstep st (.ioFault m)).early_stop = true := by
          rw [he, h0, Bool.false_or, decide_eq_true_eq]
          exact hb
        rw [run_loop_stopped hes es]
        exact ⟨hes, by rw [wstep_time]; omega⟩
      · refine ih (wstep st (.ioFault m)) d ?_ ?_ ?_ ?_
        · rw [he, h0, Bool.false_or]
          exact decide_eq_false hb
        · rw [hr]
          omega
        · rw [wstep_time]
          omega
        · rw [hr]
          have : (List.filter Event.isFault (Event.ioFault m :: es)).length =
              (List.filter Event.isFault es).length + 1 := by
            simp [List.filter_cons, Event.isFault]
          omega

/-- A tick either accepts a value (updating the smoother and the accepted
list, and formatting the live line) or leaves the state untouched and
formats the failure message. -/
theorem tick_cases (st : SmoothState) (est : EstResult) :
    (∃ bpm s, compute_bpm est = (some bpm, s) ∧
        tick st est = (⟨some (live_update st bpm), st.good_bpms ++ [live_update st bpm]⟩,
          "LIVE  " ++ toString (pyRound (live_update st bpm)) ++ " BPM")) ∨
    (∃ s, compute_bpm est = (none, s) ∧ tick st est = (st, fail_msg s)) := by
  rcases h : compute_bpm est with ⟨o, s⟩
  cases o with
  | some bpm =>
    left
    refine ⟨bpm, s, rfl, ?_⟩
    unfold tick
    rw [h]
  | none =>
    right
    refine ⟨s, rfl, ?_⟩
    unfold tick
    rw [h]

/-- Every loop body pushes exactly one string message onto the channel. -/
theorem wstep_q (st : WState) (e : Event) :
    ∃ m : String, (wstep st e).q = put_nowait st.q (some m) := by
  cases e with
  | window est => exact ⟨(tick st.smooth est).2, rfl⟩
  | ioFault m => exact ⟨_, rfl⟩
  | unexpected m => exact ⟨_, rfl⟩

/-- The channel never exceeds its capacity during the loop. -/
theorem run_loop_q_len (d : ℕ) (es : List Event) (st : WState)
    (h : st.q.length ≤ QSIZE) : (run_loop d st es).q.length ≤ QSIZE :=
  run_loop_inv (fun st => st.q.length ≤ QSIZE)
    (fun st e hP => by
      obtain ⟨m, hm⟩ := wstep_q st e
      rw [hm]
      exact put_nowait_length hP)
    es d st h

/-- The loop itself never pushes the sentinel. -/
theorem run_loop_no_sentinel (d : ℕ) (es : List Event) (st : WState)
    (h : none ∉ st.q) : none ∉ (run_loop d st es).q :=
  run_loop_inv (fun st => none ∉ st.q)
    (fun st e hP => by
      obtain ⟨m, hm⟩ := wstep_q st e
      rw [hm]
      intro hmem
      rcases mem_put_nowait hmem with h' | h'
      · exact hP h'
      · cases h')
    es d st h

/-- All values in the accepted list, and the EMA state, stay in `[20, 220]`
throughout the loop. -/
theorem run_loop_good_range (d : ℕ) (es : List Event) (st : WState)
    (h : (∀ x ∈ st.smooth.good_bpms, 20 ≤ x ∧ x ≤ 220) ∧
         (∀ p, st.smooth.prev_live = some p → 20 ≤ p ∧ p ≤ 220)) :
    (∀ x ∈ (run_loop d st es).smooth.good_bpms, 20 ≤ x ∧ x ≤ 220) ∧
    (∀ p, (run_loop d st es).smooth.prev_live = some p → 20 ≤ p ∧ p ≤ 220) := by
  refine run_loop_inv
    (fun st => (∀ x ∈ st.smooth.good_bpms, 20 ≤ x ∧ x ≤ 220) ∧
      (∀ p, st.smooth.prev_live = some p → 20 ≤ p ∧ p ≤ 220)) ?_ es d st h
  intro st e hP
  cases e with
  | window est =>
    have hsm : (wstep st (.window est)).smooth = (tick st.smooth est).1 := rfl
    rcases tick_cases st.smooth est with ⟨bpm, s, hcb, ht⟩ | ⟨s, hcb, ht⟩
    · have hbpm := compute_bpm_some hcb
      have hlr := live_update_range hP.2 ⟨hbpm.1, hbpm.2.1⟩
      refine ⟨?_, ?_⟩ <;> rw [hsm, ht]
      · intro x hx
        rcases List.mem_append.mp hx with hx | hx
        · exact hP.1 x hx
        · rw [List.mem_singleton.mp hx]
          exact hlr
      · intro p hp
        rw [← Option.some.injEq .. |>.mp hp]
        exact hlr
    · constructor
      · rw [hsm, ht]
        exact hP.1
      · rw [hsm, ht]
        exact hP.2
  | ioFault m => exact hP
  | unexpected m => exact hP

/-- A queue that ends in the sentinel lets the consumer terminate. -/
theorem dbg_iter_reaches_sentinel :
    ∀ (l : Queue), none ∉ l → (dbg_iter (l ++ [none])).isSome = true := by
  intro l
  induction l with
  | nil => intro _; rfl
  | cons x xs ih =>
    intro h
    cases x with
    | none => exact absurd (List.mem_cons_self _ _) h
    | some m =>
      simp only [List.cons_append, dbg_iter, Option.isSome_map']
      exact ih fun hh => h (List.mem_cons_of_mem _ hh)

/-- The last element of a list with one element appended. -/
theorem getLast?_append_singleton (l : List α) (a : α) :
    (l ++ [a]).getLast? = some a :=
  List.getLast?_concat l

/-- `take_last` never returns more than requested. -/
theorem take_last_length_le (l : List α) (n : ℕ) : (take_last l n).length ≤ n := by
  unfold take_last
  rw [List.length_drop]
  omega

/-- `take_last` returns exactly `n` elements when at least `n` are there. -/
theorem take_last_length_eq (l : List α) (n : ℕ) (h : n ≤ l.length) :
    (take_last l n).length = n := by
  unfold take_last
  rw [List.length_drop]
  omega

/-- `final_avg` on the empty list is the absence marker. -/
theorem final_avg_nil : final_avg [] = none := rfl

/-- `final_avg` on a nonempty list is the rounded mean. -/
theorem final_avg_ne_nil {l : List ℚ} (h : l ≠ []) :
    final_avg l = some (pyRound (npMean l)) := by
  cases l with
  | nil => exact absurd rfl h
  | cons x xs => rfl

/-! ### Claim theorems -/

/-- C1: the final result of a `get_hr` session is the arithmetic mean of
exactly the accepted smoothed-BPM list, rounded to a nearest integer
(Python banker's rounding); an empty list gives `None`; the completion
signal is set and no NaN can appear (the average is an integer option). -/
theorem c1_final_average (d : ℕ) (es : List Event) :
    ((run_worker d es).good = [] → (run_worker d es).avg = none) ∧
    ((run_worker d es).good ≠ [] →
      (run_worker d es).avg =
        some (pyRound ((run_worker d es).good.sum / ((run_worker d es).good.length : ℚ)))) ∧
    (∀ a : ℤ, (run_worker d es).avg = some a →
      |(run_worker d es).good.sum / (((run_worker d es).good.length : ℚ)) - (a : ℚ)| ≤ 1/2) ∧
    (run_worker d es).done = true := by
  refine ⟨?_, ?_, ?_, rfl⟩
  · intro h
    show final_avg (run_loop d init_wstate es).smooth.good_bpms = none
    rw [show (run_loop d init_wstate es).smooth.good_bpms = [] from h]
    exact final_avg_nil
  · intro h
    have h' : (run_loop d init_wstate es).smooth.good_bpms ≠ [] := h
    show final_avg (run_loop d init_wstate es).smooth.good_bpms = _
    rw [final_avg_ne_nil h']
    rfl
  · intro a ha
    have ha' : final_avg (run_loop d init_wstate es).smooth.good_bpms = some a := ha
    have hne : (run_loop d init_wstate es).smooth.good_bpms ≠ [] := by
      intro h0
      rw [h0, final_avg_nil] at ha'
      exact Option.noConfusion ha'
    rw [final_avg_ne_nil hne, Option.some.injEq] at ha'
    rw [← ha']
    exact abs_sub_pyRound (npMean (run_loop d init_wstate es).smooth.good_bpms)

/-- C1 witness: a session accepting the single estimate 72 BPM. -/
theorem c1_witness :
    (run_worker 5 [Event.window (EstResult.val (PyFloat.finite 72))]).avg =
      some (pyRound ((run_worker 5 [Event.window (EstResult.val (PyFloat.finite 72))]).good.sum /
        (((run_worker 5 [Event.window (EstResult.val (PyFloat.finite 72))]).good.length : ℚ)))) :=
  (c1_final_average 5 [Event.window (EstResult.val (PyFloat.finite 72))]).2.1 (by decide)

/-- C4: a non-finite estimator value or one outside `[20, 220]` is
classified `out_of_range` with no BPM propagated; a finite value inside
the closed interval is returned with status `ok`. -/
theorem c4_range_classification (f : PyFloat) :
    (compute_bpm (EstResult.val f) = (none, "out_of_range") ↔
      ¬ ∃ v : ℚ, f = PyFloat.finite v ∧ 20 ≤ v ∧ v ≤ 220) ∧
    (∀ v : ℚ, f = PyFloat.finite v → 20 ≤ v → v ≤ 220 →
      compute_bpm (EstResult.val f) = (some v, "ok")) := by
  cases f with
  | finite w =>
    have heq : compute_bpm (.val (.finite w)) =
        if w < 20 ∨ w > 220 then (none, "out_of_range") else (some w, "ok") := rfl
    constructor
    · rw [heq]
      by_cases hw : w < 20 ∨ w > 220
      · rw [if_pos hw]
        simp only [true_iff]
        rintro ⟨v, hv, h1, h2⟩
        injection hv with hv
        subst hv
        rcases hw with hw | hw <;> linarith
      · rw [if_neg hw]
        push_neg at hw
        constructor
        · intro h
          exact absurd h (by simp)
        · intro h
          exact absurd ⟨w, rfl, hw.1, hw.2⟩ h
    · intro v hv h1 h2
      injection hv with hv
      subst hv
      rw [heq, if_neg (by push_neg; exact ⟨h1, h2⟩)]
  | nan =>
    refine ⟨by simp [compute_bpm], ?_⟩
    intro v hv
    exact absurd hv (by simp)
  | posInf =>
    refine ⟨by simp [compute_bpm], ?_⟩
    intro v hv
    exact absurd hv (by simp)
  | negInf =>
    refine ⟨by simp [compute_bpm], ?_⟩
    intro v hv
    exact absurd hv (by simp)

/-- C4 witness: the in-range value 72 is accepted as `ok`. -/
theorem c4_witness :
    compute_bpm (EstResult.val (PyFloat.finite 72)) = (some 72, "ok") :=
  (c4_range_classification (PyFloat.finite 72)).2 72 rfl (by norm_num) (by norm_num)

/-- C9: the live channel never holds more than 256 messages; a push onto a
full channel drops the message and leaves the contents unchanged, and this
holds for the whole session including the final sentinel push. -/
theorem c9_bounded_channel :
    (∀ (q : Queue) (m : Option String), QSIZE ≤ q.length → put_nowait q m = q) ∧
    (∀ (q : Queue) (m : Option String), q.length ≤ QSIZE → (put_nowait q m).length ≤ QSIZE) ∧
    (∀ (d : ℕ) (es : List Event), (run_worker d es).q.length ≤ QSIZE) := by
  refine ⟨fun q m h => put_nowait_full h, fun q m h => put_nowait_length h, fun d es => ?_⟩
  show (put_nowait (run_loop d init_wstate es).q none).length ≤ QSIZE
  exact put_nowait_length (run_loop_q_len d es init_wstate (Nat.zero_le _))

/-- C9 witness: a push onto a channel holding 256 messages is dropped. -/
theorem c9_witness :
    put_nowait (List.replicate 256 (some "LIVE --")) (some "x") =
      List.replicate 256 (some "LIVE --") ∧
    (put_nowait [] (some "x")).length ≤ QSIZE :=
  ⟨c9_bounded_channel.1 (List.replicate 256 (some "LIVE --")) (some "x")
      (by rw [List.length_replicate]; exact Nat.le.refl),
   c9_bounded_channel.2.1 [] (some "x") (Nat.zero_le _)⟩

/-- C10: every accepted smoothed value lies in `[20, 220]` (the first is a
raw in-range estimate, each later one a convex EMA combination), so the
final average, when present, is an integer in `[20, 220]`. -/
theorem c10_accepted_range (d : ℕ) (es : List Event) :
    (∀ x ∈ (run_worker d es).good, 20 ≤ x ∧ x ≤ 220) ∧
    (∀ a : ℤ, (run_worker d es).avg = some a → 20 ≤ a ∧ a ≤ 220) := by
  have hinv := run_loop_good_range d es init_wstate
    ⟨fun x hx => absurd hx (List.not_mem_nil x), fun p hp => Option.noConfusion hp⟩
  refine ⟨hinv.1, ?_⟩
  intro a ha
  have ha' : final_avg (run_loop d init_wstate es).smooth.good_bpms = some a := ha
  have hne : (run_loop d init_wstate es).smooth.good_bpms ≠ [] := by
    intro h0
    rw [h0, final_avg_nil] at ha'
    exact Option.noConfusion ha'
  rw [final_avg_ne_nil hne, Option.some.injEq] at ha'
  have hm := npMean_bounds hne hinv.1
  subst ha'
  constructor
  · exact le_pyRound_of_le (by exact_mod_cast hm.1)
  · exact pyRound_le_of_le (by exact_mod_cast hm.2)

/-- C10 witness: the session accepting only 72 BPM has its average 72,
inside `[20, 220]`. -/
theorem c10_witness :
    20 ≤ (72 : ℤ) ∧ (72 : ℤ) ≤ 220 :=
  (c10_accepted_range 5 [Event.window (EstResult.val (PyFloat.finite 72))]).2 72
    (by
      show final_avg ([] ++ [live_update ⟨none, []⟩ 72]) = some 72
      rw [show ([] ++ [live_update ⟨none, []⟩ 72] : List ℚ) = [72] from rfl]
      rw [final_avg_ne_nil (by simp)]
      rw [show npMean [(72 : ℚ)] = 72 by norm_num [npMean]]
      rw [show pyRound 72 = 72 by simp only [pyRound, ratFloor_eq]; norm_num])

/-- C3: when the script carries more than `MAX_RESETS` I/O faults within
the session duration, the loop breaks out before the deadline and the same
finalization path runs: the average is computed from the accepted list,
the completion signal is set, and no exception escapes. -/
theorem c3_reset_bound_early_end (d : ℕ) (es : List Event)
    (hlen : es.length < d)
    (hfaults : MAX_RESETS < (es.filter Event.isFault).length) :
    (run_worker d es).early = true ∧
    (run_worker d es).endTime < d ∧
    (run_worker d es).done = true ∧
    (run_worker d es).avg = final_avg (run_worker d es).good := by
  have h := run_loop_fault_stop es init_wstate d rfl (Nat.zero_le _)
    (by simpa [init_wstate] using hlen) (by simpa [init_wstate] using hfaults)
  exact ⟨h.1, h.2, rfl, rfl⟩

/-- C3 witness: four consecutive I/O faults inside a 10-unit session. -/
theorem c3_witness :
    (run_worker 10 (List.replicate 4 (Event.ioFault "e"))).early = true ∧
    (run_worker 10 (List.replicate 4 (Event.ioFault "e"))).endTime < 10 ∧
    (run_worker 10 (List.replicate 4 (Event.ioFault "e"))).done = true ∧
    (run_worker 10 (List.replicate 4 (Event.ioFault "e"))).avg =
      final_avg (run_worker 10 (List.replicate 4 (Event.ioFault "e"))).good :=
  c3_reset_bound_early_end 10 (List.replicate 4 (Event.ioFault "e")) (by decide) (by decide)

/-- C7: when the temperature read fails, the heart-rate stream is still
produced, the first stream line is the temperature error line followed by
all heart-rate lines, and the final payload is `{'ok': False, 'error': e}`
with no heart-rate average; a missing DS18B20 produces exactly the
documented error string. -/
theorem c7_temp_failure_degraded (e : String) (avg : Option ℤ) (lines : List String)
    (scale rounding : String) :
    get_vitals (.err e) avg lines = (.fail e, ("TEMP ERROR: " ++ e) :: lines) ∧
    read_temp .noDevice scale rounding = .err DEVICE_NOT_FOUND ∧
    get_vitals (read_temp .noDevice scale rounding) avg lines =
      (.fail DEVICE_NOT_FOUND, ("TEMP ERROR: " ++ DEVICE_NOT_FOUND) :: lines) :=
  ⟨rfl, rfl, rfl⟩

/-- C8: for every valid reading and rounding policy, the Fahrenheit result
equals `round(C*9/5+32, 1)` applied to the Celsius result of the same raw
reading: the conversion happens at the output boundary, after rounding. -/
theorem c8_fahrenheit_from_celsius (milli : ℤ) (rounding : String) :
    read_temp (.reading milli) "F" rounding =
      .okF (pyRound1 ((read_temp (.reading milli) "C" rounding).valC * (9/5) + 32)) := rfl

/-- C2 (amended): the channel emits at most one sentinel and, whenever the
sentinel is present, it is the last item; if the channel is not full when
the worker finalizes, the sentinel is emitted last and the consumer
reaches it.  (When the channel is full, the sentinel push is dropped like
any other push, and the consumer never reaches a sentinel.) -/
theorem c2_sentinel_amended (d : ℕ) (es : List Event) :
    ((run_worker d es).q.count none ≤ 1) ∧
    (none ∈ (run_worker d es).q → (run_worker d es).q.getLast? = some none) ∧
    ((run_loop d init_wstate es).q.length < QSIZE →
      (run_worker d es).q.getLast? = some none ∧
      (dbg_iter (run_worker d es).q).isSome = true) := by
  have hns : none ∉ (run_loop d init_wstate es).q :=
    run_loop_no_sentinel d es init_wstate (List.not_mem_nil none)
  have hq : (run_worker d es).q = put_nowait (run_loop d init_wstate es).q none := rfl
  have h0 : (run_loop d init_wstate es).q.count none = 0 := List.count_eq_zero.mpr hns
  by_cases hfull : (run_loop d init_wstate es).q.length < QSIZE
  · have happ : put_nowait (run_loop d init_wstate es).q none =
        (run_loop d init_wstate es).q ++ [none] := put_nowait_not_full hfull
    refine ⟨?_, ?_, ?_⟩
    · rw [hq, happ, List.count_append, h0]
      simp
    · intro _
      rw [hq, happ]
      exact getLast?_append_singleton _ none
    · intro _
      rw [hq, happ]
      exact ⟨getLast?_append_singleton _ none, dbg_iter_reaches_sentinel _ hns⟩
  · have heq : put_nowait (run_loop d init_wstate es).q none =
        (run_loop d init_wstate es).q := put_nowait_full (by omega)
    refine ⟨?_, ?_, ?_⟩
    · rw [hq, heq]
      omega
    · intro hmem
      rw [hq, heq] at hmem
      exact absurd hmem hns
    · intro hlt
      exact absurd hlt hfull

/-- C2 witness: an empty session terminates its stream with the sentinel,
and the consumer reaches it. -/
theorem c2_witness :
    (run_worker 3 []).q.getLast? = some none ∧
    (dbg_iter (run_worker 3 []).q).isSome = true :=
  (c2_sentinel_amended 3 []).2.2 (by decide)

set_option maxRecDepth 400000 in
/-- C2 counterexample: a session that fills the channel with 256 live
lines before finalizing drops the sentinel push, so the consumer iterating
the live stream never reaches a sentinel (it would block forever). -/
theorem c2_counterexample :
    dbg_iter (run_worker 300 (List.replicate 256 (Event.window EstResult.exn))).q = none := by
  decide

/-- C5 (amended): on a valid estimate the smoothed value follows the EMA
recurrence (first value seeds the state unsmoothed), the smoothed value is
appended to the accepted list, and the live line is
`"LIVE  <round(smoothed)> BPM"` (a single space before `BPM`); on an
absent estimate neither the smoother state nor the accepted list changes
and the fixed message per failure tag is emitted. -/
theorem c5_tick_behavior (st : SmoothState) (est : EstResult) :
    (∀ (bpm : ℚ) (s : String), compute_bpm est = (some bpm, s) →
      tick st est = (⟨some (live_update st bpm), st.good_bpms ++ [live_update st bpm]⟩,
        "LIVE  " ++ toString (pyRound (live_update st bpm)) ++ " BPM")) ∧
    (st.prev_live = none → ∀ bpm : ℚ, live_update st bpm = bpm) ∧
    (∀ p : ℚ, st.prev_live = some p → ∀ bpm : ℚ,
      live_update st bpm = EMA_ALPHA * bpm + (1 - EMA_ALPHA) * p) ∧
    (∀ s : String, compute_bpm est = (none, s) → tick st est = (st, fail_msg s)) ∧
    fail_msg "noisy" = "LIVE  --  (noisy / adjust finger)" ∧
    fail_msg "error" = "LIVE  --  (processing error)" ∧
    fail_msg "out_of_range" = "LIVE  --  (out of range)" ∧
    (∀ s : String, s ≠ "noisy" → s ≠ "error" → s ≠ "out_of_range" →
      fail_msg s = "LIVE --") := by
  refine ⟨?_, ?_, ?_, ?_, rfl, rfl, rfl, ?_⟩
  · intro bpm s h
    unfold tick
    rw [h]
  · intro h bpm
    unfold live_update
    rw [h]
  · intro p h bpm
    unfold live_update
    rw [h]
  · intro s h
    unfold tick
    rw [h]
  · intro s h1 h2 h3
    unfold fail_msg
    rw [if_neg h1, if_neg h2, if_neg h3]

/-- C5 witness: a first valid estimate of 100 BPM seeds the smoother,
appends 100 to the accepted list and emits the live line. -/
theorem c5_witness :
    tick ⟨none, []⟩ (EstResult.val (PyFloat.finite 100)) =
      (⟨some (live_update ⟨none, []⟩ 100),
        (⟨none, []⟩ : SmoothState).good_bpms ++ [live_update ⟨none, []⟩ 100]⟩,
       "LIVE  " ++ toString (pyRound (live_update ⟨none, []⟩ 100)) ++ " BPM") :=
  (c5_tick_behavior ⟨none, []⟩ (EstResult.val (PyFloat.finite 100))).1 100 "ok" (by decide)

/-- C5 counterexample: the live line for a smoothed value of 100 is
`"LIVE  100 BPM"`, not the claimed `"LIVE  100  BPM"` (the source puts a
single space before `BPM`). -/
theorem c5_counterexample :
    (tick ⟨none, []⟩ (EstResult.val (PyFloat.finite 100))).2 = "LIVE  100 BPM" ∧
    "LIVE  100 BPM" ≠ "LIVE  100  BPM" := by
  constructor
  · show "LIVE  " ++ toString (pyRound (live_update ⟨none, []⟩ 100)) ++ " BPM" = _
    rw [show live_update ⟨none, []⟩ 100 = 100 from rfl]
    rw [show pyRound 100 = 100 by simp only [pyRound, ratFloor_eq]; norm_num]
    rfl
  · decide

/-- C6 (amended): after the initial collection pass each buffer holds at
most the window length (exactly the window length whenever at least that
many samples were accumulated before the timeout; fewer only on timeout),
and every subsequent emission truncates the buffers to exactly the window
length, so the buffers never grow without bound. -/
theorem c6_window_truncation :
    (∀ (need : ℕ) (polls : List Poll),
      (initial_fill need polls).1.length ≤ need ∧
      (initial_fill need polls).2.length ≤ need) ∧
    (∀ (need : ℕ) (polls : List Poll),
      need ≤ (fill_loop need ([], []) polls).2.length →
      (initial_fill need polls).2.length = need) ∧
    (∀ (need step : ℕ) (buf : List ℤ × List ℤ) (p : Poll) (w : List ℤ × List ℤ),
      (emit_step need step buf p).2 = some w →
      w.2.length = need ∧ w = (emit_step need step buf p).1 ∧
      (buf.1.length = buf.2.length → p.red.length = p.ir.length →
        w.1.length = need)) := by
  refine ⟨?_, ?_, ?_⟩
  · intro need polls
    exact ⟨take_last_length_le _ need, take_last_length_le _ need⟩
  · intro need polls h
    exact take_last_length_eq _ need h
  · intro need step buf p w h
    unfold emit_step at h ⊢
    by_cases hc : p.red ≠ [] ∧ p.ir ≠ []
    · rw [if_pos hc] at h ⊢
      by_cases hlen : need + step ≤ (buf.2 ++ p.ir).length
      · rw [if_pos hlen] at h ⊢
        injection h with h
        subst h
        refine ⟨take_last_length_eq _ need (by omega), rfl, ?_⟩
        intro h1 h2
        refine take_last_length_eq _ need ?_
        rw [List.length_append] at hlen ⊢
        omega
      · rw [if_neg hlen] at h
        exact absurd h (by simp)
    · rw [if_neg hc] at h
      exact absurd h (by simp)

/-- C6 witness: a steady-state emission with window length 2 and step 1
truncates both buffers to exactly 2 samples. -/
theorem c6_witness :
    (([11, 12] : List ℤ), ([11, 12] : List ℤ)).2.length = 2 ∧
    (([11, 12] : List ℤ), ([11, 12] : List ℤ)) =
      (emit_step 2 1 ([10, 11], [10, 11]) ⟨[12], [12]⟩).1 ∧
    ((([10, 11] : List ℤ)).length = (([10, 11] : List ℤ)).length →
      (([12] : List ℤ)).length = (([12] : List ℤ)).length →
      (([11, 12] : List ℤ), ([11, 12] : List ℤ)).1.length = 2) :=
  c6_window_truncation.2.2 2 1 ([10, 11], [10, 11]) ⟨[12], [12]⟩
    ([11, 12], [11, 12]) (by decide)

/-- C6 counterexample: when the driver returns only empty reads until the
fill timeout, the initial pass leaves a buffer of length 0, not the
required window length. -/
theorem c6_counterexample :
    (initial_fill 800 (List.replicate 5 ⟨[], []⟩)).2.length ≠ 800 := by
  decide
